import Mathlib

/-
Verification of the dnsfilter DNS sinkhole (src/main.rs) against its
natural-language specification.

Byte strings are modelled as `List Nat` (each element a byte value < 256;
Rust `String`s are represented by their UTF-8 byte sequences).  The handful
of I/O effects (UDP sockets, the upstream exchange) are modelled by explicit
outcome oracles passed as arguments, so that every definition is executable.
-/

set_option maxRecDepth 10000

namespace DnsFilter

/-- Errors of the DNS codec.  The Rust source uses string literals; the spec
names them `TooShort` (for `"Invalid DNS request"`), `TruncatedLabel` (for
`"Invalid domain name in DNS request"`) and `InvalidEncoding` (for
`"Invalid UTF-8 in domain name"`). -/
inductive ParseError where
  | tooShort
  | truncatedLabel
  | invalidEncoding
deriving DecidableEq

/-- Test for a UTF-8 continuation byte (`0x80 ..= 0xBF`). -/
def isUtf8Cont (b : Nat) : Bool := 128 ≤ b && b ≤ 191

/-- Validity of a byte sequence as UTF-8, mirroring Rust's
`std::str::from_utf8` (RFC 3629: surrogates and overlong encodings are
rejected, four-byte sequences stop at `U+10FFFF`). -/
def isValidUtf8 : List Nat → Bool
  | [] => true
  | b :: rest =>
    if b < 128 then isValidUtf8 rest
    else if 194 ≤ b && b ≤ 223 then
      match rest with
      | c1 :: rest2 => isUtf8Cont c1 && isValidUtf8 rest2
      | [] => false
    else if b == 224 then
      match rest with
      | c1 :: c2 :: rest2 => (160 ≤ c1 && c1 ≤ 191) && isUtf8Cont c2 && isValidUtf8 rest2
      | _ => false
    else if 225 ≤ b && b ≤ 236 then
      match rest with
      | c1 :: c2 :: rest2 => isUtf8Cont c1 && isUtf8Cont c2 && isValidUtf8 rest2
      | _ => false
    else if b == 237 then
      match rest with
      | c1 :: c2 :: rest2 => (128 ≤ c1 && c1 ≤ 159) && isUtf8Cont c2 && isValidUtf8 rest2
      | _ => false
    else if 238 ≤ b && b ≤ 239 then
      match rest with
      | c1 :: c2 :: rest2 => isUtf8Cont c1 && isUtf8Cont c2 && isValidUtf8 rest2
      | _ => false
    else if b == 240 then
      match rest with
      | c1 :: c2 :: c3 :: rest2 =>
        (144 ≤ c1 && c1 ≤ 191) && isUtf8Cont c2 && isUtf8Cont c3 && isValidUtf8 rest2
      | _ => false
    else if 241 ≤ b && b ≤ 243 then
      match rest with
      | c1 :: c2 :: c3 :: rest2 =>
        isUtf8Cont c1 && isUtf8Cont c2 && isUtf8Cont c3 && isValidUtf8 rest2
      | _ => false
    else if b == 244 then
      match rest with
      | c1 :: c2 :: c3 :: rest2 =>
        (128 ≤ c1 && c1 ≤ 143) && isUtf8Cont c2 && isUtf8Cont c3 && isValidUtf8 rest2
      | _ => false
    else false

/-- Body of the `while` loop of `parse_dns_query` (src/main.rs lines
158-172): at `pos`, read a length byte, check it against the end of the
buffer, check the label bytes are valid UTF-8, append them plus a dot to
the accumulated `domain`, and advance.  `fuel` bounds the number of loop
iterations so the recursion is structural; since every iteration advances
`pos` by at least one, once `request.length ≤ pos + fuel` the fuel can never
run out before the loop condition `pos < request.length` fails, and the
fuel-exhausted branch returns exactly what the loop exit returns.
`parse_dns_query` supplies `fuel = request.length`. -/
def parseLoop : Nat → List Nat → Nat → List Nat → Except ParseError (List Nat)
  | 0, _, _, domain => Except.ok domain
  | fuel + 1, request, pos, domain =>
    if request.length ≤ pos then Except.ok domain
    else if request.getD pos 0 = 0 then Except.ok domain
    else if request.length < pos + 1 + request.getD pos 0 then Except.error ParseError.truncatedLabel
    else if isValidUtf8 ((request.drop (pos + 1)).take (request.getD pos 0)) then
      parseLoop fuel request (pos + 1 + request.getD pos 0)
        (domain ++ (request.drop (pos + 1)).take (request.getD pos 0) ++ [46])
    else Except.error ParseError.invalidEncoding

/-- Final trailing-dot strip of `parse_dns_query` (lines 174-176).  The
domain produced by the loop is a valid UTF-8 byte string, so its last
character is `'.'` exactly when its last byte is 46. -/
def stripDot (domain : List Nat) : List Nat :=
  if domain.getLast? = some 46 then domain.dropLast else domain

/-- Embedding of `parse_dns_query` (src/main.rs lines 150-179): reject
buffers shorter than the 12-byte header, then read length-prefixed labels
starting at offset 12 and strip the trailing dot. -/
def parse_dns_query (request : List Nat) : Except ParseError (List Nat) :=
  if request.length < 12 then Except.error ParseError.tooShort
  else
    match parseLoop request.length request 12 [] with
    | Except.error e => Except.error e
    | Except.ok domain => Except.ok (stripDot domain)

/-- Byte updates of `create_nxdomain_response` (src/main.rs lines 122-130):
on a copy of the request, set the response flag bit of byte 2 (`|= 0x80`),
set the low nibble of byte 3 to 3 keeping its high nibble
(`= (b & 0xF0) | 0x03`), and zero bytes 6 through 11.  Each `set` reads the
partially updated copy, exactly as the Rust code mutates `response` in
place. -/
def nxBody (request : List Nat) : List Nat :=
  let r1 := request.set 2 (request.getD 2 0 ||| 128)
  let r2 := r1.set 3 ((r1.getD 3 0 &&& 240) ||| 3)
  (((((r2.set 6 0).set 7 0).set 8 0).set 9 0).set 10 0).set 11 0

/-- Embedding of `create_nxdomain_response` (src/main.rs lines 118-132):
reject requests shorter than the 12-byte header, otherwise rewrite the
header bytes of a copy of the request. -/
def create_nxdomain_response (request : List Nat) : Except ParseError (List Nat) :=
  if request.length < 12 then Except.error ParseError.tooShort
  else Except.ok (nxBody request)

/-- Splitting a byte string at every dot (byte 46), mirroring Rust's
`str::split('.')` (so `domain.rsplit('.')` is `(splitDots domain).reverse`).
Since `'.'` is ASCII and UTF-8 continuation bytes are all ≥ 128, the
byte-level split agrees with Rust's character-level split on every valid
UTF-8 string.  Splitting the empty string yields one empty part, as in
Rust. -/
def splitDots : List Nat → List (List Nat)
  | [] => [[]]
  | b :: rest =>
    if b = 46 then [] :: splitDots rest
    else
      match splitDots rest with
      | [] => [[b]]
      | part :: parts => (b :: part) :: parts

/-- The spec-modelled approximate membership filter.  Modelled from the
spec: the filter itself is the external `qfilter::Filter` crate, whose code
is not part of this repository; per the spec it answers membership with
possible false positives at a bounded rate and no false negatives.  The
abstract state is the list of inserted keys plus an arbitrary
false-positive oracle (the bounded-rate aspect is not modelled). -/
structure Filter where
  inserted : List (List Nat)
  falsePositives : List Nat → Bool

/-- Modelled from the spec: inserting records the key.  The Rust `insert`
can fail only on capacity exhaustion, which `read_denylist` rules out by
sizing the filter to the entry count. -/
def Filter.insert (f : Filter) (s : List Nat) : Filter :=
  { f with inserted := s :: f.inserted }

/-- Modelled from the spec: `contains` finds every inserted key and may
additionally report oracle-chosen false positives. -/
def Filter.contains (f : Filter) (s : List Nat) : Bool :=
  decide (s ∈ f.inserted) || f.falsePositives s

/-- Embedding of `DomainSet` (src/main.rs lines 27-45), the thin wrapper
around the filter. -/
structure DomainSet where
  set : Filter

/-- Embedding of `DomainSet::new`; the capacity argument only sizes the
spec-modelled filter and has no observable effect in the model, the
false-positive oracle stands in for the probabilistic behaviour. -/
def DomainSet.new (falsePositives : List Nat → Bool) : DomainSet :=
  ⟨⟨[], falsePositives⟩⟩

/-- Embedding of `DomainSet::insert`. -/
def DomainSet.insert (d : DomainSet) (s : List Nat) : DomainSet :=
  ⟨d.set.insert s⟩

/-- Embedding of `DomainSet::contains`. -/
def DomainSet.contains (d : DomainSet) (s : List Nat) : Bool :=
  d.set.contains s

/-- Embedding of the construction loop of `read_denylist` (src/main.rs
lines 65-69): fold the processed entry list into a fresh filter.  File
reading and line normalization are external collaborators per the spec;
`entries` is their output. -/
def build_denylist (entries : List (List Nat)) (falsePositives : List Nat → Bool) : DomainSet :=
  entries.foldl (fun f e => f.insert e) (DomainSet.new falsePositives)

/-- Body of the `for part in parts` loop of `in_denylist` (src/main.rs
lines 141-146): prepend the next label and a dot to `current`, return true
as soon as the filter contains the rebuilt suffix. -/
def denyGo (denylist : DomainSet) (current : List Nat) : List (List Nat) → Bool
  | [] => false
  | part :: rest =>
    if denylist.contains (part ++ 46 :: current) then true
    else denyGo denylist (part ++ 46 :: current) rest

/-- Embedding of `in_denylist` (src/main.rs lines 134-148): walk the
dot-separated labels right to left; the first (rightmost) label initializes
`current` and is itself never tested against the filter. -/
def in_denylist (domain : List Nat) (denylist : DomainSet) : Bool :=
  match (splitDots domain).reverse with
  | [] => false
  | first :: rest => denyGo denylist first rest

/-- Errors of the upstream forwarder.  The Rust source uses string
literals; the spec names them `ForwardFailed` (`"Failed to forward"`),
`UpstreamUnreachable` (`"Failed to receive response"`) and
`UpstreamTimeout` (`"Upstream DNS server timeout"`). -/
inductive ForwardError where
  | forwardFailed
  | upstreamUnreachable
  | upstreamTimeout
deriving DecidableEq

/-- Outcome of the single bounded wait for an upstream reply: the deadline
elapses, the socket-level receive fails, or a datagram arrives. -/
inductive RecvOutcome where
  | timeout
  | sockError
  | datagram (bytes : List Nat)
deriving DecidableEq

/-- Oracle for the network effects of one `forward_to_upstream` call:
whether the send succeeds, and what the bounded receive observes. -/
structure NetworkBehavior where
  sendOk : Bool
  recv : RecvOutcome

/-- Embedding of `forward_to_upstream` (src/main.rs lines 181-199) over the
network oracle: a failed send yields `forwardFailed`; otherwise an elapsed
deadline yields `upstreamTimeout`, a receive failure `upstreamUnreachable`,
and an arriving datagram is returned as received into the 512-byte buffer
(hence truncated to its first 512 bytes). -/
def forward_to_upstream (request : List Nat) (net : NetworkBehavior) : Except ForwardError (List Nat) :=
  if net.sendOk = false then Except.error ForwardError.forwardFailed
  else
    match net.recv with
    | RecvOutcome.timeout => Except.error ForwardError.upstreamTimeout
    | RecvOutcome.sockError => Except.error ForwardError.upstreamUnreachable
    | RecvOutcome.datagram bytes => Except.ok (bytes.take 512)

/-- Embedding of `handle_request` (src/main.rs lines 100-116), returning
the list of datagrams sent back to the client: each `?` failure aborts the
handler before any send, so a parse or forward error produces `[]`.  The
`request` argument is used unmodified for both the negative response and
the upstream relay. -/
def handle_request (request : List Nat) (denylist : DomainSet) (net : NetworkBehavior) : List (List Nat) :=
  match parse_dns_query request with
  | Except.error _ => []
  | Except.ok domain =>
    if in_denylist domain denylist then
      match create_nxdomain_response request with
      | Except.error _ => []
      | Except.ok response => [response]
    else
      match forward_to_upstream request net with
      | Except.error _ => []
      | Except.ok response => [response]

/-- Joining labels with single dots; follows the spec's words for a
"dot-joined label sequence".  `dotJoin [a, b, c]` is `a.b.c`. -/
def dotJoin : List (List Nat) → List Nat
  | [] => []
  | [l] => l
  | l :: l2 :: rest => l ++ 46 :: dotJoin (l2 :: rest)

/-- The successive values of `current` that `in_denylist` tests against the
filter when no test matches: starting from `current`, each remaining label
is prepended with a dot, and every rebuilt suffix is collected.  The
strings actually passed to `contains` during a run are always a prefix of
this list (the walk stops at the first match). -/
def accums (current : List Nat) : List (List Nat) → List (List Nat)
  | [] => []
  | part :: rest => (part ++ 46 :: current) :: accums (part ++ 46 :: current) rest

/-- The full list of suffix strings `in_denylist` tests against the filter
for a given domain (when no test matches; in general a prefix of this list
is tested). -/
def testedStrings (domain : List Nat) : List (List Nat) :=
  match (splitDots domain).reverse with
  | [] => []
  | first :: rest => accums first rest

/-- Claim-side matcher following the spec's words: some dot-delimited
suffix of the domain — the rightmost `k` labels for any `k` from 1 (the
top-level label alone, `drop (n-1)`) up to the full label count (`drop 0`)
— is in the filter. -/
def suffix_match_spec (domain : List Nat) (denylist : DomainSet) : Bool :=
  (List.range (splitDots domain).length).any
    (fun i => denylist.contains (dotJoin ((splitDots domain).drop i)))

/-- Amended matcher: only the suffixes made of the rightmost `k` labels for
`k` from 2 up to the full label count are tested (the top-level label alone
is never tested, so single-label and empty domains are never matched). -/
def suffix_match_tail (domain : List Nat) (denylist : DomainSet) : Bool :=
  (List.range ((splitDots domain).length - 1)).any
    (fun i => denylist.contains (dotJoin ((splitDots domain).drop i)))

/-- Outcome classification of the question-section label scan. -/
inductive ScanResult where
  | clean
  | truncated
  | badLabel
deriving DecidableEq

/-- Spec-side scan of the question section mirroring the parser's walk
without accumulating the domain: it reports `truncated` when a declared
label length first overruns the buffer, `badLabel` when an invalid UTF-8
label is first met, and `clean` otherwise.  Fueled like `parseLoop`. -/
def scanQuestion : Nat → List Nat → Nat → ScanResult
  | 0, _, _ => ScanResult.clean
  | fuel + 1, request, pos =>
    if request.length ≤ pos then ScanResult.clean
    else if request.getD pos 0 = 0 then ScanResult.clean
    else if request.length < pos + 1 + request.getD pos 0 then ScanResult.truncated
    else if isValidUtf8 ((request.drop (pos + 1)).take (request.getD pos 0)) then
      scanQuestion fuel request (pos + 1 + request.getD pos 0)
    else ScanResult.badLabel

/-- Claim-side structural property: walking the length-prefixed labels by
position alone (ignoring label contents), some declared label length reads
past the end of the buffer. -/
def hasOverrunLabel : Nat → List Nat → Nat → Bool
  | 0, _, _ => false
  | fuel + 1, request, pos =>
    if request.length ≤ pos then false
    else if request.getD pos 0 = 0 then false
    else if request.length < pos + 1 + request.getD pos 0 then true
    else hasOverrunLabel fuel request (pos + 1 + request.getD pos 0)

/-- Claim-side collection of the labels delimited by the length bytes of
the question section (walking by position alone, stopping at a zero length,
the buffer end, or an overrunning length). -/
def scannedLabels : Nat → List Nat → Nat → List (List Nat)
  | 0, _, _ => []
  | fuel + 1, request, pos =>
    if request.length ≤ pos then []
    else if request.getD pos 0 = 0 then []
    else if request.length < pos + 1 + request.getD pos 0 then []
    else
      ((request.drop (pos + 1)).take (request.getD pos 0))
        :: scannedLabels fuel request (pos + 1 + request.getD pos 0)

/-- Claim-side notion of a printable character, for the spec's
"valid printable text": printable ASCII (`0x20 ..= 0x7E`). -/
def isPrintableByte (b : Nat) : Bool := 32 ≤ b && b ≤ 126

/-- Claim-side ASCII lowercasing of one byte, as Rust's
`str::to_lowercase` acts on ASCII letters. -/
def asciiLowerByte (b : Nat) : Nat := if 65 ≤ b && b ≤ 90 then b + 32 else b

/-- Claim-side ASCII lowercasing of a byte string. -/
def asciiLower (s : List Nat) : List Nat := s.map asciiLowerByte

/-- Claim-side well-formedness of a domain string: non-empty labels joined
by single dots, with no leading or trailing dot — equivalently, splitting
at dots yields no empty part. -/
def wellFormedDomain (s : List Nat) : Bool :=
  (splitDots s).all (fun l => !l.isEmpty)

/-- The conclusion of the negative-response claim for one request: the
synthesized response has the request's length, byte 2 gains the response
flag bit and keeps all other bits, byte 3 keeps its high nibble and has low
nibble 3, bytes 6 through 11 are zero, and every remaining byte equals the
request's. -/
def nxdomainCorrect (request : List Nat) : Prop :=
  ∃ response, create_nxdomain_response request = Except.ok response ∧
    response.length = request.length ∧
    Nat.testBit (response.getD 2 0) 7 = true ∧
    (∀ i, i ≠ 7 → Nat.testBit (response.getD 2 0) i = Nat.testBit (request.getD 2 0) i) ∧
    response.getD 3 0 % 16 = 3 ∧
    response.getD 3 0 / 16 = request.getD 3 0 / 16 ∧
    (∀ j, 6 ≤ j → j ≤ 11 → response.getD j 0 = 0) ∧
    (∀ j, j < request.length → (j = 0 ∨ j = 1 ∨ j = 4 ∨ j = 5 ∨ 12 ≤ j) →
      response.getD j 0 = request.getD j 0)

lemma splitDots_ne_nil (l : List Nat) : splitDots l ≠ [] := by
  cases l with
  | nil => simp [splitDots]
  | cons b rest =>
    simp only [splitDots]
    split_ifs
    · simp
    · cases h : splitDots rest <;> simp

lemma dotJoin_cons (x : List Nat) (l : List (List Nat)) (h : l ≠ []) :
    dotJoin (x :: l) = x ++ 46 :: dotJoin l := by
  cases l with
  | nil => exact absurd rfl h
  | cons y ys => rfl

lemma dotJoin_pair_append (xs : List (List Nat)) (a b : List Nat) :
    dotJoin (xs ++ [a, b]) = dotJoin (xs ++ [a ++ 46 :: b]) := by
  induction xs with
  | nil => rfl
  | cons x xs ih =>
    rw [List.cons_append, List.cons_append,
      dotJoin_cons x (xs ++ [a, b]) (by simp),
      dotJoin_cons x (xs ++ [a ++ 46 :: b]) (by simp), ih]

lemma denyGo_eq_any (d : DomainSet) : ∀ (ps : List (List Nat)) (c : List Nat),
    denyGo d c ps = (accums c ps).any d.contains := by
  intro ps
  induction ps with
  | nil => intro c; rfl
  | cons p rest ih =>
    intro c
    simp only [denyGo, accums, List.any_cons, ih]
    by_cases h : d.contains (p ++ 46 :: c) <;> simp [h]

lemma mem_accums : ∀ (ps : List (List Nat)) (c x : List Nat),
    x ∈ accums c ps ↔ ∃ j, j < ps.length ∧ x = dotJoin ((ps.take (j + 1)).reverse ++ [c]) := by
  intro ps
  induction ps with
  | nil => intro c x; simp [accums]
  | cons p rest ih =>
    intro c x
    simp only [accums, List.mem_cons, ih, List.length_cons]
    constructor
    · rintro (rfl | ⟨j, hj, rfl⟩)
      · exact ⟨0, by omega, rfl⟩
      · refine ⟨j + 1, by omega, ?_⟩
        rw [List.take_succ_cons, List.reverse_cons, List.append_assoc]
        exact (dotJoin_pair_append (rest.take (j + 1)).reverse p c).symm
    · rintro ⟨j, hj, rfl⟩
      cases j with
      | zero => exact Or.inl rfl
      | succ j =>
        refine Or.inr ⟨j, by omega, ?_⟩
        rw [List.take_succ_cons, List.reverse_cons, List.append_assoc]
        exact dotJoin_pair_append (rest.take (j + 1)).reverse p c

lemma rev_drop_eq (c : List Nat) (ps : List (List Nat)) (i : Nat) (hi : i ≤ ps.length) :
    (c :: ps).reverse.drop i = (ps.take (ps.length - i)).reverse ++ [c] := by
  rw [List.reverse_cons, List.drop_append_of_le_length (by simpa using hi)]
  congr 1
  rw [List.reverse_take]
  congr 1
  omega

lemma denyGo_eq_range (d : DomainSet) (c : List Nat) (ps : List (List Nat)) :
    denyGo d c ps
      = (List.range ps.length).any (fun i => d.contains (dotJoin ((c :: ps).reverse.drop i))) := by
  rw [Bool.eq_iff_iff, denyGo_eq_any]
  simp only [List.any_eq_true, List.mem_range]
  constructor
  · rintro ⟨x, hx, hfx⟩
    rw [mem_accums] at hx
    obtain ⟨j, hj, rfl⟩ := hx
    refine ⟨ps.length - (j + 1), by omega, ?_⟩
    rw [rev_drop_eq c ps _ (by omega)]
    have he : ps.length - (ps.length - (j + 1)) = j + 1 := by omega
    rw [he]
    exact hfx
  · rintro ⟨i, hi, hfi⟩
    rw [rev_drop_eq c ps i (by omega)] at hfi
    refine ⟨dotJoin ((ps.take (ps.length - i)).reverse ++ [c]), ?_, hfi⟩
    rw [mem_accums]
    refine ⟨ps.length - i - 1, by omega, ?_⟩
    have he : ps.length - i - 1 + 1 = ps.length - i := by omega
    rw [he]

/-- C1, amended: `in_denylist` returns true exactly when some dot-delimited
suffix made of the rightmost `k` labels, for `k` from 2 up to the full
label count, is contained in the filter; the top-level label alone is never
tested, and an empty or single-label domain is never reported blocked. -/
theorem C1_amended (domain : List Nat) (denylist : DomainSet) :
    in_denylist domain denylist = suffix_match_tail domain denylist := by
  unfold in_denylist suffix_match_tail
  cases h : (splitDots domain).reverse with
  | nil => exact absurd h (by simpa using splitDots_ne_nil domain)
  | cons c ps =>
    have hsd : splitDots domain = (c :: ps).reverse := by
      rw [← h, List.reverse_reverse]
    rw [hsd]
    simp only [List.reverse_reverse, List.length_reverse, List.length_cons,
      Nat.add_sub_cancel]
    exact denyGo_eq_range denylist c ps

/-- C1 fails as stated: with the single-label domain `com` and a filter
containing exactly `com`, the rightmost-1-label suffix (the domain itself)
is in the filter, yet `in_denylist` answers false — the first `rsplit`
part only initializes `current` and is never tested. -/
theorem C1_counterexample :
    suffix_match_spec [99, 111, 109] ⟨⟨[[99, 111, 109]], fun _ => false⟩⟩ = true
    ∧ in_denylist [99, 111, 109] ⟨⟨[[99, 111, 109]], fun _ => false⟩⟩ = false := by
  constructor <;> rfl

lemma splitDots_no_dot : ∀ (l : List Nat), ∀ p ∈ splitDots l, 46 ∉ p := by
  intro l
  induction l with
  | nil =>
    intro p hp
    simp only [splitDots, List.mem_singleton] at hp
    simp [hp]
  | cons b rest ih =>
    intro p hp
    simp only [splitDots] at hp
    by_cases hb : b = 46
    · rw [if_pos hb] at hp
      rcases List.mem_cons.mp hp with rfl | hmem
      · simp
      · exact ih p hmem
    · rw [if_neg hb] at hp
      cases hsp : splitDots rest with
      | nil => exact absurd hsp (splitDots_ne_nil rest)
      | cons q qs =>
        rw [hsp] at hp
        rcases List.mem_cons.mp hp with rfl | hmem
        · intro hc
          rcases List.mem_cons.mp hc with h46 | h46
          · exact hb h46.symm
          · exact ih q (by rw [hsp]; exact List.mem_cons_self q qs) h46
        · exact ih p (by rw [hsp]; exact List.mem_cons_of_mem q hmem)

lemma splitDots_of_no_dot (l : List Nat) (h : 46 ∉ l) : splitDots l = [l] := by
  induction l with
  | nil => rfl
  | cons b rest ih =>
    have hb : b ≠ 46 := fun e => h (by rw [e]; exact List.mem_cons_self 46 rest)
    simp only [splitDots, if_neg hb]
    rw [ih (fun hc => h (List.mem_cons_of_mem b hc))]

lemma splitDots_append_dot (p t : List Nat) (h : 46 ∉ p) :
    splitDots (p ++ 46 :: t) = p :: splitDots t := by
  induction p with
  | nil => simp [splitDots]
  | cons b p ih =>
    have hb : b ≠ 46 := fun e => h (by rw [e]; exact List.mem_cons_self 46 p)
    simp only [List.cons_append, splitDots, if_neg hb, List.append_eq]
    rw [ih (fun hc => h (List.mem_cons_of_mem b hc))]

lemma dotJoin_wellFormed : ∀ (ls : List (List Nat)), ls ≠ [] →
    (∀ l ∈ ls, l ≠ [] ∧ 46 ∉ l) → wellFormedDomain (dotJoin ls) = true := by
  intro ls
  induction ls with
  | nil => intro h; exact absurd rfl h
  | cons x rest ih =>
    intro _ hall
    have hx := hall x (List.mem_cons_self x rest)
    cases rest with
    | nil =>
      unfold wellFormedDomain
      rw [show dotJoin [x] = x from rfl, splitDots_of_no_dot x hx.2]
      simp [hx.1]
    | cons y rest2 =>
      rw [dotJoin_cons x (y :: rest2) (by simp)]
      unfold wellFormedDomain
      rw [splitDots_append_dot x (dotJoin (y :: rest2)) hx.2, List.all_cons]
      have hrec := ih (by simp) (fun l hl => hall l (List.mem_cons_of_mem x hl))
      unfold wellFormedDomain at hrec
      simp [hrec, hx.1]

/-- C6, amended: if the parsed domain is itself well-formed (no empty label
when re-split at dots — which the parser does not guarantee, since a label
byte may be a dot), then every suffix string `in_denylist` tests against
the filter is well-formed: non-empty labels joined by single dots, with no
leading or trailing dot. -/
theorem C6_amended (request domain : List Nat)
    (hp : parse_dns_query request = Except.ok domain)
    (hw : wellFormedDomain domain = true) :
    ∀ s ∈ testedStrings domain, wellFormedDomain s = true := by
  intro s hs
  unfold testedStrings at hs
  unfold wellFormedDomain at hw
  cases hrl : (splitDots domain).reverse with
  | nil => rw [hrl] at hs; simp at hs
  | cons c ps =>
    rw [hrl] at hs
    rw [mem_accums] at hs
    obtain ⟨j, hj, rfl⟩ := hs
    apply dotJoin_wellFormed
    · simp
    · intro l hl
      have hmem : l ∈ splitDots domain := by
        have hrev : l ∈ (splitDots domain).reverse := by
          rw [hrl]
          rcases List.mem_append.mp hl with h1 | h1
          · exact List.mem_cons_of_mem c
              (List.mem_of_mem_take (List.mem_reverse.mp h1))
          · rw [List.mem_singleton.mp h1]
            exact List.mem_cons_self c ps
        exact List.mem_reverse.mp hrev
      refine ⟨?_, splitDots_no_dot domain l hmem⟩
      have := List.all_eq_true.mp hw l hmem
      simpa using this

/-- C6 fails as stated: the request encoding a single label consisting of
one dot byte parses successfully to the domain `"."`, and suffix matching
then tests the string `"."` against the filter, which is not a sequence of
non-empty labels (it has a leading and a trailing dot). -/
theorem C6_counterexample :
    parse_dns_query [0, 0, 0, 0, 0, 0, 0, 0, 0, 0, 0, 0, 1, 46, 0] = Except.ok [46]
    ∧ testedStrings [46] = [[46]]
    ∧ wellFormedDomain [46] = false := by
  refine ⟨rfl, rfl, rfl⟩

/-- Witness for the amended C6 at a concrete two-label query. -/
theorem C6_witness : wellFormedDomain [97, 46, 98] = true :=
  C6_amended [0, 0, 0, 0, 0, 0, 0, 0, 0, 0, 0, 0, 1, 97, 1, 98, 0] [97, 46, 98]
    rfl rfl [97, 46, 98] (by decide)

lemma parseLoop_scan : ∀ (fuel : Nat) (request : List Nat) (pos : Nat) (domain : List Nat),
    ((parseLoop fuel request pos domain = Except.error ParseError.truncatedLabel)
      ↔ scanQuestion fuel request pos = ScanResult.truncated)
    ∧ ((parseLoop fuel request pos domain = Except.error ParseError.invalidEncoding)
      ↔ scanQuestion fuel request pos = ScanResult.badLabel) := by
  intro fuel
  induction fuel with
  | zero => intro request pos domain; simp [parseLoop, scanQuestion]
  | succ fuel ih =>
    intro request pos domain
    simp only [parseLoop, scanQuestion]
    split_ifs with h1 h2 h3 h4
    · simp
    · simp
    · simp
    · exact ih request _ _
    · simp

lemma parse_scan (request : List Nat) (h : 12 ≤ request.length) :
    (parse_dns_query request = Except.error ParseError.truncatedLabel
      ↔ scanQuestion request.length request 12 = ScanResult.truncated)
    ∧ (parse_dns_query request = Except.error ParseError.invalidEncoding
      ↔ scanQuestion request.length request 12 = ScanResult.badLabel) := by
  have hps := parseLoop_scan request.length request 12 []
  unfold parse_dns_query
  rw [if_neg (by omega)]
  rcases hp : parseLoop request.length request 12 [] with e | d
  · rw [hp] at hps
    cases e <;> simp_all
  · rw [hp] at hps
    simp_all

/-- C3, amended: the parser round-trips the constructed query for `a.b.c`;
a buffer shorter than 12 bytes fails with `TooShort`; and (amendment) a
header-bearing buffer fails with `TruncatedLabel` exactly when the label
scan meets a declared length that overruns the buffer before it meets any
invalid-UTF-8 label — an earlier invalid label yields `InvalidEncoding`
instead, even if a later length byte would overrun. -/
theorem C3_amended :
    parse_dns_query [0, 0, 0, 0, 0, 0, 0, 0, 0, 0, 0, 0, 1, 97, 1, 98, 1, 99, 0]
      = Except.ok [97, 46, 98, 46, 99]
    ∧ (∀ request : List Nat, 12 ≤ request.length →
        (parse_dns_query request = Except.error ParseError.truncatedLabel
          ↔ scanQuestion request.length request 12 = ScanResult.truncated))
    ∧ (∀ request : List Nat, request.length < 12 →
        parse_dns_query request = Except.error ParseError.tooShort) := by
  refine ⟨rfl, ?_, ?_⟩
  · intro request h
    exact (parse_scan request h).1
  · intro request h
    unfold parse_dns_query
    rw [if_pos h]

/-- Witness for the amended C3: a query whose single length byte declares
three label bytes while only one remains fails with `TruncatedLabel`. -/
theorem C3_witness :
    parse_dns_query [0, 0, 0, 0, 0, 0, 0, 0, 0, 0, 0, 0, 3, 97] = Except.error ParseError.truncatedLabel :=
  (C3_amended.2.1 [0, 0, 0, 0, 0, 0, 0, 0, 0, 0, 0, 0, 3, 97] (by decide)).mpr (by decide)

/-- C3 fails as stated: in the buffer `header ++ [1, 255, 2]` the length
byte 2 at offset 14 would read past the end (a truncated label in the
claim's sense), yet parsing fails with `InvalidEncoding`, because the
earlier label `[255]` is rejected as invalid UTF-8 first. -/
theorem C3_counterexample :
    hasOverrunLabel 15 [0, 0, 0, 0, 0, 0, 0, 0, 0, 0, 0, 0, 1, 255, 2] 12 = true
    ∧ parse_dns_query [0, 0, 0, 0, 0, 0, 0, 0, 0, 0, 0, 0, 1, 255, 2]
        = Except.error ParseError.invalidEncoding := by
  refine ⟨rfl, rfl⟩

/-- C9, amended: for a header-bearing buffer, parsing fails with
`InvalidEncoding` exactly when the label scan meets a label that is not
valid UTF-8 before it meets any overrunning length byte; printability
beyond UTF-8 validity is not checked, so labels of non-printable but valid
UTF-8 bytes are accepted. -/
theorem C9_amended (request : List Nat) (h : 12 ≤ request.length) :
    parse_dns_query request = Except.error ParseError.invalidEncoding
      ↔ scanQuestion request.length request 12 = ScanResult.badLabel :=
  (parse_scan request h).2

/-- Witness for the amended C9: a query whose single label is the invalid
UTF-8 byte 255 fails with `InvalidEncoding`. -/
theorem C9_witness :
    parse_dns_query [0, 0, 0, 0, 0, 0, 0, 0, 0, 0, 0, 0, 1, 255, 0] = Except.error ParseError.invalidEncoding :=
  (C9_amended [0, 0, 0, 0, 0, 0, 0, 0, 0, 0, 0, 0, 1, 255, 0] (by decide)).mpr (by decide)

/-- C9 fails as stated: the request whose single label is the control byte
`0x01` — valid UTF-8 but not printable text — parses successfully instead
of failing; only UTF-8 validity is checked. -/
theorem C9_counterexample :
    [1] ∈ scannedLabels 15 [0, 0, 0, 0, 0, 0, 0, 0, 0, 0, 0, 0, 1, 1, 0] 12
    ∧ ([1].all isPrintableByte) = false
    ∧ parse_dns_query [0, 0, 0, 0, 0, 0, 0, 0, 0, 0, 0, 0, 1, 1, 0] = Except.ok [1] := by
  refine ⟨by decide, rfl, rfl⟩

/-- C5 is violated by the code at this input: a query for the single label
`A` (byte 65) parses to the uppercase string `A`, which differs from its
own lowercased form — `parse_dns_query` never lowercases, although
`read_denylist` lowercases every entry. -/
theorem C5_bug :
    parse_dns_query [0, 0, 0, 0, 0, 0, 0, 0, 0, 0, 0, 0, 1, 65, 0] = Except.ok [65]
    ∧ asciiLower [65] = [97]
    ∧ [65] ≠ asciiLower [65] := by
  refine ⟨rfl, rfl, by decide⟩

lemma getD_set_self (l : List Nat) (i a : Nat) (h : i < l.length) :
    (l.set i a).getD i 0 = a := by
  rw [List.getD_eq_getElem?_getD, List.getElem?_set, if_pos rfl, if_pos h, Option.getD_some]

lemma getD_set_ne (l : List Nat) (i a j : Nat) (h : i ≠ j) :
    (l.set i a).getD j 0 = l.getD j 0 := by
  rw [List.getD_eq_getElem?_getD, List.getElem?_set, if_neg h, ← List.getD_eq_getElem?_getD]

lemma byte3_facts : ∀ b, b < 256 → ((b &&& 240) ||| 3) % 16 = 3 ∧ ((b &&& 240) ||| 3) / 16 = b / 16 := by
  decide

lemma testBit_lor128_seven (b : Nat) : Nat.testBit (b ||| 128) 7 = true := by
  rw [Nat.testBit_lor]
  have h : Nat.testBit 128 7 = true := by decide
  simp [h]

lemma testBit_lor128_other (b i : Nat) (h : i ≠ 7) :
    Nat.testBit (b ||| 128) i = Nat.testBit b i := by
  rw [Nat.testBit_lor]
  have h128 : Nat.testBit 128 i = false := by
    have he : (128 : Nat) = 2 ^ 7 := rfl
    rw [he, Nat.testBit_two_pow_of_ne (fun e => h e.symm)]
  simp [h128]

lemma nx_getD (request : List Nat) (h12 : 12 ≤ request.length) (j : Nat) :
    (nxBody request).getD j 0
      = if j = 2 then request.getD 2 0 ||| 128
        else if j = 3 then (request.getD 3 0 &&& 240) ||| 3
        else if j = 6 ∨ j = 7 ∨ j = 8 ∨ j = 9 ∨ j = 10 ∨ j = 11 then 0
        else request.getD j 0 := by
  simp only [nxBody]
  by_cases h2 : j = 2
  · subst h2
    rw [getD_set_ne, getD_set_ne, getD_set_ne, getD_set_ne, getD_set_ne, getD_set_ne,
      getD_set_ne, getD_set_self]
    · simp
    all_goals (try simp only [List.length_set])
    all_goals omega
  by_cases h3 : j = 3
  · subst h3
    rw [getD_set_ne, getD_set_ne, getD_set_ne, getD_set_ne, getD_set_ne, getD_set_ne,
      getD_set_self, getD_set_ne]
    · simp
    all_goals (try simp only [List.length_set])
    all_goals omega
  by_cases h6 : j = 6
  · subst h6
    rw [getD_set_ne, getD_set_ne, getD_set_ne, getD_set_ne, getD_set_ne, getD_set_self]
    · simp
    all_goals (try simp only [List.length_set])
    all_goals omega
  by_cases h7 : j = 7
  · subst h7
    rw [getD_set_ne, getD_set_ne, getD_set_ne, getD_set_ne, getD_set_self]
    · simp
    all_goals (try simp only [List.length_set])
    all_goals omega
  by_cases h8 : j = 8
  · subst h8
    rw [getD_set_ne, getD_set_ne, getD_set_ne, getD_set_self]
    · simp
    all_goals (try simp only [List.length_set])
    all_goals omega
  by_cases h9 : j = 9
  · subst h9
    rw [getD_set_ne, getD_set_ne, getD_set_self]
    · simp
    all_goals (try simp only [List.length_set])
    all_goals omega
  by_cases h10 : j = 10
  · subst h10
    rw [getD_set_ne, getD_set_self]
    · simp
    all_goals (try simp only [List.length_set])
    all_goals omega
  by_cases h11 : j = 11
  · subst h11
    rw [getD_set_self]
    · simp
    all_goals (try simp only [List.length_set])
    all_goals omega
  rw [getD_set_ne, getD_set_ne, getD_set_ne, getD_set_ne, getD_set_ne, getD_set_ne,
    getD_set_ne, getD_set_ne]
  · simp [h2, h3, h6, h7, h8, h9, h10, h11]
  all_goals omega

/-- C2: on any request of at least 12 bytes (whose elements are bytes),
`create_nxdomain_response` succeeds with a buffer of the same length that
sets the response flag bit of byte 2 (keeping its other bits), forces the
low nibble of byte 3 to 3 (keeping its high nibble), zeroes bytes 6-11,
and copies every other byte — the ID bytes 0-1, the question count bytes
4-5, and everything from offset 12 on; shorter requests fail with
`TooShort`. -/
theorem C2 (request : List Nat) (hbytes : ∀ b ∈ request, b < 256) :
    (request.length < 12 → create_nxdomain_response request = Except.error ParseError.tooShort)
    ∧ (12 ≤ request.length → nxdomainCorrect request) := by
  constructor
  · intro h
    unfold create_nxdomain_response
    rw [if_pos h]
  · intro h12
    have hb3 : request.getD 3 0 < 256 := by
      have h3 : 3 < request.length := by omega
      rw [List.getD_eq_getElem request 0 h3]
      exact hbytes _ (List.getElem_mem h3)
    have e2 : (nxBody request).getD 2 0 = request.getD 2 0 ||| 128 := by
      have he := nx_getD request h12 2
      simpa using he
    have e3 : (nxBody request).getD 3 0 = (request.getD 3 0 &&& 240) ||| 3 := by
      have he := nx_getD request h12 3
      simpa using he
    unfold nxdomainCorrect
    refine ⟨nxBody request, ?_, ?_, ?_, ?_, ?_, ?_, ?_, ?_⟩
    · unfold create_nxdomain_response
      rw [if_neg (by omega)]
    · simp [nxBody, List.length_set]
    · rw [e2]
      exact testBit_lor128_seven _
    · intro i hi
      rw [e2]
      exact testBit_lor128_other _ i hi
    · rw [e3]
      exact (byte3_facts _ hb3).1
    · rw [e3]
      exact (byte3_facts _ hb3).2
    · intro j hj6 hj11
      have he := nx_getD request h12 j
      rw [if_neg (by omega), if_neg (by omega), if_pos (by omega)] at he
      exact he
    · intro j hjlen hj
      have he := nx_getD request h12 j
      rw [if_neg (by omega), if_neg (by omega), if_neg (by omega)] at he
      exact he

/-- Witness for C2 at the all-zero 12-byte header. -/
theorem C2_witness : nxdomainCorrect [0, 0, 0, 0, 0, 0, 0, 0, 0, 0, 0, 0] :=
  (C2 [0, 0, 0, 0, 0, 0, 0, 0, 0, 0, 0, 0] (by decide)).2 (by decide)

lemma build_inserted : ∀ (entries : List (List Nat)) (ds : DomainSet),
    (entries.foldl (fun f e => f.insert e) ds).set.inserted
      = entries.reverse ++ ds.set.inserted := by
  intro entries
  induction entries with
  | nil => intro ds; simp
  | cons e rest ih =>
    intro ds
    simp only [List.foldl_cons, ih, List.reverse_cons, List.append_assoc,
      List.singleton_append]
    rfl

/-- C4: every entry inserted while building the filter is subsequently
found by `contains` — the spec-modelled filter has no false negatives. -/
theorem C4 (entries : List (List Nat)) (falsePositives : List Nat → Bool)
    (entry : List Nat) (h : entry ∈ entries) :
    (build_denylist entries falsePositives).contains entry = true := by
  unfold build_denylist DomainSet.contains Filter.contains
  rw [build_inserted]
  simp [DomainSet.new, List.mem_reverse, h]

/-- Witness for C4 with a one-entry denylist. -/
theorem C4_witness : (build_denylist [[97]] (fun _ => false)).contains [97] = true :=
  C4 [[97]] (fun _ => false) [97] (List.mem_singleton.mpr rfl)

/-- C7: a request whose parse fails, and a non-blocked request whose
forward fails, produce no datagram back to the client — `handle_request`
sends nothing. -/
theorem C7 (request : List Nat) (denylist : DomainSet) (net : NetworkBehavior) :
    (∀ e, parse_dns_query request = Except.error e → handle_request request denylist net = [])
    ∧ (∀ domain, parse_dns_query request = Except.ok domain →
        in_denylist domain denylist = false →
        ∀ e, forward_to_upstream request net = Except.error e →
          handle_request request denylist net = []) := by
  constructor
  · intro e he
    unfold handle_request
    rw [he]
  · intro domain hd hb e he
    unfold handle_request
    rw [hd]
    simp [hb, he]

/-- Witness for C7 at a one-byte (hence unparseable) request. -/
theorem C7_witness :
    handle_request [0] (DomainSet.new (fun _ => false)) ⟨true, RecvOutcome.timeout⟩ = [] :=
  (C7 [0] (DomainSet.new (fun _ => false)) ⟨true, RecvOutcome.timeout⟩).1 ParseError.tooShort rfl

/-- C8: the forwarder maps a failed send to `ForwardFailed`, an elapsed
deadline to `UpstreamTimeout`, a receive failure to `UpstreamUnreachable`,
and returns an arriving reply datagram (of at most 512 bytes) verbatim. -/
theorem C8 (request : List Nat) (net : NetworkBehavior) :
    (net.sendOk = false →
      forward_to_upstream request net = Except.error ForwardError.forwardFailed)
    ∧ (net.sendOk = true → net.recv = RecvOutcome.timeout →
      forward_to_upstream request net = Except.error ForwardError.upstreamTimeout)
    ∧ (net.sendOk = true → net.recv = RecvOutcome.sockError →
      forward_to_upstream request net = Except.error ForwardError.upstreamUnreachable)
    ∧ (∀ reply, net.sendOk = true → net.recv = RecvOutcome.datagram reply →
      reply.length ≤ 512 → forward_to_upstream request net = Except.ok reply) := by
  refine ⟨?_, ?_, ?_, ?_⟩
  · intro h
    unfold forward_to_upstream
    rw [if_pos h]
  · intro hs hr
    unfold forward_to_upstream
    rw [if_neg (by simp [hs]), hr]
  · intro hs hr
    unfold forward_to_upstream
    rw [if_neg (by simp [hs]), hr]
  · intro reply hs hr hlen
    unfold forward_to_upstream
    rw [if_neg (by simp [hs]), hr]
    simp [List.take_of_length_le hlen]

/-- Witness for C8: a one-byte reply is returned verbatim. -/
theorem C8_witness :
    forward_to_upstream [] ⟨true, RecvOutcome.datagram [7]⟩ = Except.ok [7] :=
  (C8 [] ⟨true, RecvOutcome.datagram [7]⟩).2.2.2 [7] rfl rfl (by decide)

/-- C10: a request of length exactly 12, or a longer one whose byte at
offset 12 is zero, parses to the empty domain; the empty domain is never
reported blocked, so `handle_request` takes the forwarding branch and never
synthesizes a negative response for it. -/
theorem C10 (request : List Nat) (denylist : DomainSet) (net : NetworkBehavior)
    (h : request.length = 12 ∨ (12 < request.length ∧ request.getD 12 0 = 0)) :
    parse_dns_query request = Except.ok []
    ∧ in_denylist [] denylist = false
    ∧ handle_request request denylist net
        = (match forward_to_upstream request net with
           | Except.ok response => [response]
           | Except.error _ => []) := by
  have h12 : 12 ≤ request.length := by rcases h with h | ⟨h1, h2⟩ <;> omega
  have hparse : parse_dns_query request = Except.ok [] := by
    unfold parse_dns_query
    rw [if_neg (by omega)]
    obtain ⟨fuel, hf⟩ : ∃ k, request.length = k + 1 := ⟨request.length - 1, by omega⟩
    rw [hf]
    simp only [parseLoop]
    rcases h with h | ⟨h1, h2⟩
    · rw [if_pos (by omega)]
      rfl
    · rw [if_neg (by omega), if_pos h2]
      rfl
  have hempty : in_denylist [] denylist = false := rfl
  refine ⟨hparse, hempty, ?_⟩
  unfold handle_request
  rw [hparse]
  simp only [hempty, Bool.false_eq_true, if_false]
  rcases hfw : forward_to_upstream request net with e | r <;> simp [hfw]

/-- Witness for C10 at the bare 12-byte header. -/
theorem C10_witness :
    parse_dns_query [0, 0, 0, 0, 0, 0, 0, 0, 0, 0, 0, 0] = Except.ok []
    ∧ in_denylist [] (DomainSet.new (fun _ => false)) = false
    ∧ handle_request [0, 0, 0, 0, 0, 0, 0, 0, 0, 0, 0, 0] (DomainSet.new (fun _ => false))
          ⟨true, RecvOutcome.datagram [5]⟩
        = (match forward_to_upstream [0, 0, 0, 0, 0, 0, 0, 0, 0, 0, 0, 0]
              ⟨true, RecvOutcome.datagram [5]⟩ with
           | Except.ok response => [response]
           | Except.error _ => []) :=
  C10 [0, 0, 0, 0, 0, 0, 0, 0, 0, 0, 0, 0] (DomainSet.new (fun _ => false))
    ⟨true, RecvOutcome.datagram [5]⟩ (Or.inl (by decide))

end DnsFilter
